import Mathlib

/-!
Verification of the auction system (RabbitMQ microservices).

Shallow embedding of the bid-validator service (`src/ms/lance.py`) and the
auction-registry service (`src/ms/leilao.py`).  JSON payloads are modelled as
association lists of string keys to a small value type, so that field names of
published events are captured exactly.  Python ints/floats are modelled as
`Int` (the claims only concern ordering and (in)equality of values, never
float rounding); Python sets and dicts are modelled as lists with the usual
add-if-absent / update-or-append operations, preserving insertion order as
CPython dicts do.
-/

/-- A JSON-like value: string, integer, or null. -/
inductive JVal where
  | s (v : String)
  | i (v : Int)
  | null
deriving DecidableEq, Repr

/-- A JSON object: association list from keys to values, in insertion order. -/
abbrev JObj := List (String × JVal)

/-- A message published to the exchange: routing key plus JSON body
(`ch.basic_publish(..., routing_key=..., body=json.dumps(body))`). -/
structure Published where
  routing_key : String
  body : JObj
deriving DecidableEq, Repr

/-- An HTTP response: status code plus JSON body (`jsonify(...), code`). -/
structure HttpResp where
  status : Int
  body : JObj
deriving DecidableEq, Repr

/-- `data.get(k)` on a JSON object: first binding of `k`, or `none`. -/
def jget : JObj → String → Option JVal
  | [], _ => none
  | (k, v) :: rest, key => if k = key then some v else jget rest key

/-- Python `int(...)` / `float(...)` applied to a `data.get(...)` result:
succeeds on a numeric value, raises (here: `none`) on `None`/null/strings. -/
def pyNum : Option JVal → Option Int
  | some (.i n) => some n
  | _ => none

/-- Python `str(...)` applied to a `data.get(...)` result: never raises;
`str(None) = "None"`. -/
def pyStr : Option JVal → String
  | some (.s s) => s
  | some (.i n) => toString n
  | _ => "None"

/-- Dict lookup `d.get(k)` for an integer-keyed dict. -/
def alookup {α : Type} : List (Int × α) → Int → Option α
  | [], _ => none
  | (k, v) :: rest, key => if k = key then some v else alookup rest key

/-- Dict assignment `d[k] = v`: update in place if present, else append
(CPython dicts keep insertion order). -/
def ainsert {α : Type} : List (Int × α) → Int → α → List (Int × α)
  | [], k, v => [(k, v)]
  | (k', v') :: rest, k, v =>
      if k' = k then (k, v) :: rest else (k', v') :: ainsert rest k v

/-- Set add `s.add(x)`: no-op if already present. -/
def sinsert (l : List Int) (x : Int) : List Int :=
  if x ∈ l then l else l ++ [x]

/-- Set removal `s.remove(x)` (guarded by a membership check in the source). -/
def sremove (l : List Int) (x : Int) : List Int :=
  l.filter (fun y => decide (y ≠ x))

/-! ## MS Lance (`src/ms/lance.py`): the bid validator -/

/-- Global state of MS Lance: `active_auctions` (a set of auction ids) and
`best_bids` (dict auction_id -> (user_id, value), with `None` for no bidder). -/
structure LanceState where
  active_auctions : List Int
  best_bids : List (Int × (Option String × Int))
deriving DecidableEq, Repr

/-- Initial state of MS Lance: both tables empty. -/
def lanceInit : LanceState := ⟨[], []⟩

/-- Result of a REST call to MS Lance: new state, published events (in
order), HTTP response. -/
structure LanceResult where
  state : LanceState
  events : List Published
  resp : HttpResp
deriving DecidableEq, Repr

/-- Body of the `lance_invalidado` event published by `efetuar_lance`. -/
def invalidadoEvent (aid : Int) (uid : String) (v : Int) (reason : String) : JObj :=
  [("event", .s "lance_invalidado"), ("auction_id", .i aid), ("user_id", .s uid),
   ("value", .i v), ("reason", .s reason)]

/-- Body of the `lance_validado` event published by `efetuar_lance`. -/
def validadoEvent (aid : Int) (uid : String) (v : Int) (prev : Int) : JObj :=
  [("event", .s "lance_validado"), ("auction_id", .i aid), ("user_id", .s uid),
   ("value", .i v), ("previous_value", .i prev)]

/-- Body of the `leilao_vencedor` event published by `on_leilao_finalizado`.
Note the source names the winning bidder field `winner_id` (and includes an
`event` discriminator field). -/
def winnerEvent (aid : Int) (uid : String) (v : Int) : JObj :=
  [("event", .s "leilao_vencedor"), ("auction_id", .i aid),
   ("winner_id", .s uid), ("value", .i v)]

/-- The body of the REST 400 answer when a required field is falsy. -/
def missingFieldsResp : HttpResp :=
  ⟨400, [("error", .s "Campos obrigatórios: auction_id, user_id, value")]⟩

/-- Body of the `POST /lances` handler of `src/ms/lance.py` (lines 159-222)
after field extraction: rejects falsy fields, then under the lock: rejects if
the auction is not in `active_auctions`, rejects if the value does not
strictly exceed the current best (`best_bids.get(auction_id, (None, 0.0))`,
whose second component is the `prev_value` the source destructures),
otherwise replaces the best bid and publishes `lance.validado`. -/
def lanceCore (st : LanceState) (auction_id : Int) (user_id : String) (value : Int) :
    LanceResult :=
  if auction_id = 0 ∨ user_id = "" ∨ value = 0 then
    ⟨st, [], missingFieldsResp⟩
  else if auction_id ∉ st.active_auctions then
    ⟨st, [⟨"lance.invalidado",
           invalidadoEvent auction_id user_id value "Leilão não está ativo"⟩],
     ⟨400, [("error", .s "Leilão não está ativo")]⟩⟩
  else if value ≤ ((alookup st.best_bids auction_id).getD (none, 0)).2 then
    ⟨st, [⟨"lance.invalidado",
           invalidadoEvent auction_id user_id value
             ("Lance deve ser maior que " ++
              toString ((alookup st.best_bids auction_id).getD (none, 0)).2)⟩],
     ⟨400, [("error", .s ("Lance deve ser maior que " ++
              toString ((alookup st.best_bids auction_id).getD (none, 0)).2))]⟩⟩
  else
    ⟨{ st with best_bids := ainsert st.best_bids auction_id (some user_id, value) },
     [⟨"lance.validado",
       validadoEvent auction_id user_id value
         ((alookup st.best_bids auction_id).getD (none, 0)).2⟩],
     ⟨200, [("message", .s "Lance aceito"), ("auction_id", .i auction_id),
            ("user_id", .s user_id), ("value", .i value)]⟩⟩

/-- `POST /lances` handler `efetuar_lance` of `src/ms/lance.py` (lines
159-222).  Reads `auction_id`, `user_id`, `value` from the request JSON — and
nothing else; any conversion error is caught and answered with a 500,
modelled by the fallthrough branch — then runs `lanceCore`. -/
def efetuar_lance (st : LanceState) (data : JObj) : LanceResult :=
  match pyNum (jget data "auction_id"), pyNum (jget data "value") with
  | some auction_id, some value =>
      lanceCore st auction_id (pyStr (jget data "user_id")) value
  | _, _ => ⟨st, [], ⟨500, [("error", .s "exception")]⟩⟩

/-- Callback `on_leilao_iniciado` of `src/ms/lance.py` (lines 85-101): adds
the auction id to `active_auctions` and initialises `best_bids[aid]` to
`(None, 0.0)` if absent.  A decode error is caught and leaves state
unchanged. -/
def on_leilao_iniciado (st : LanceState) (msg : JObj) : LanceState :=
  match pyNum (jget msg "id") with
  | some aid =>
      ⟨sinsert st.active_auctions aid,
       if (alookup st.best_bids aid).isSome then st.best_bids
       else st.best_bids ++ [(aid, (none, 0))]⟩
  | none => st

/-- Body of the `on_leilao_finalizado` callback after decoding the auction
id: removes the auction from `active_auctions` (if present) and, if
`best_bids` has an entry with a non-`None` bidder, publishes
`leilao.vencedor`. -/
def finCore (st : LanceState) (aid : Int) : LanceState × List Published :=
  match alookup st.best_bids aid with
  | some (some winner_id, winner_value) =>
      ({ st with active_auctions := sremove st.active_auctions aid },
       [⟨"leilao.vencedor", winnerEvent aid winner_id winner_value⟩])
  | _ => ({ st with active_auctions := sremove st.active_auctions aid }, [])

/-- Callback `on_leilao_finalizado` of `src/ms/lance.py` (lines 104-131):
decodes the auction id from the message (a decode error is caught and leaves
state unchanged) and runs `finCore`. -/
def on_leilao_finalizado (st : LanceState) (msg : JObj) : LanceState × List Published :=
  match pyNum (jget msg "id") with
  | some aid => finCore st aid
  | none => (st, [])

/-- An input delivered to MS Lance: a lifecycle event from one of its two
queues, or a REST bid. -/
inductive VInput where
  | iniciado (msg : JObj)
  | finalizado (msg : JObj)
  | lance (data : JObj)
deriving DecidableEq, Repr

/-- One input processed by MS Lance (the consumer thread and the REST handler
serialise state access through `auctions_lock`). -/
def stepLance (st : LanceState) : VInput → LanceState × List Published
  | .iniciado m => (on_leilao_iniciado st m, [])
  | .finalizado m => on_leilao_finalizado st m
  | .lance d => let r := efetuar_lance st d; (r.state, r.events)

/-- A serialised run of MS Lance over a list of inputs, accumulating the
published events in order. -/
def runLance (st : LanceState) : List VInput → LanceState × List Published
  | [] => (st, [])
  | i :: rest =>
      let p := stepLance st i
      let q := runLance p.1 rest
      (q.1, p.2 ++ q.2)

/-- The "finished" lifecycle message for auction `aid` as published by the
registry (`{"event": "leilao.finalizado", "id": aid, "fim": ...}`). -/
def finMsg (aid : Int) (t : Int) : JObj :=
  [("event", .s "leilao.finalizado"), ("id", .i aid), ("fim", .i t)]

/-- A REST bid request body `{auction_id, user_id, value}` as forwarded by the
API gateway. -/
def bidReq (aid : Int) (uid : String) (v : Int) : JObj :=
  [("auction_id", .i aid), ("user_id", .s uid), ("value", .i v)]

/-- A signed bid envelope as built by `client.py` (`publisher_loop`), with the
payload fields inlined next to the signature material; `efetuar_lance` reads
only `auction_id`, `user_id` and `value` from the request JSON. -/
def bidEnvelope (aid : Int) (uid : String) (v : Int) (sig : String) : JObj :=
  [("auction_id", .i aid), ("user_id", .s uid), ("value", .i v),
   ("signature", .s sig), ("algo", .s "RSA-PKCS1v15-SHA256"), ("key_id", .s uid)]

/-- The bidder recorded in the ledger for `aid`, if any:
`none` when there is no entry or the entry has bidder `None`. -/
def bidderOf (st : LanceState) (aid : Int) : Option String :=
  ((alookup st.best_bids aid).map Prod.fst).getD none

/-- Number of `leilao.vencedor` events in a published trace. -/
def countWinners (evs : List Published) : Nat :=
  (evs.filter (fun e => decide (e.routing_key = "leilao.vencedor"))).length

/-! ## MS Leilão (`src/ms/leilao.py`): the auction registry and scheduler -/

/-- One entry of `leiloes_db` in `src/ms/leilao.py`. -/
structure Leilao where
  id : Int
  nome : String
  descricao : String
  valor_inicial : Int
  start_at : Int
  end_at : Int
  status : String
deriving DecidableEq, Repr

/-- Global state of MS Leilão: the auction table `leiloes_db`, the dict
`leiloes_ativos` (auction_id -> end time, in insertion order), the set
`leiloes_finalizados` and the counter `next_auction_id`. -/
structure RegState where
  leiloes_db : List Leilao
  leiloes_ativos : List (Int × Int)
  leiloes_finalizados : List Int
  next_auction_id : Int
deriving DecidableEq, Repr

/-- Initial state of MS Leilão. -/
def regInit : RegState := ⟨[], [], [], 1⟩

/-- A lifecycle event published by the scheduler loop, with the payload
fields of `evt_start` / `evt_end`. -/
inductive RegEvent where
  | iniciado (id : Int) (nome descricao : String) (valor_inicial inicio fim : Int)
  | finalizado (id : Int) (fim : Int)
deriving DecidableEq, Repr

/-- The auction id carried by a lifecycle event. -/
def RegEvent.eid : RegEvent → Int
  | .iniciado i _ _ _ _ _ => i
  | .finalizado i _ => i

/-- Whether a lifecycle event is a "started" event. -/
def RegEvent.isStart : RegEvent → Bool
  | .iniciado _ _ _ _ _ _ => true
  | .finalizado _ _ => false

/-- Result of the REST handler `criar_leilao`. -/
structure CriarResult where
  state : RegState
  resp : HttpResp
deriving DecidableEq, Repr

/-- `POST /leiloes` handler `criar_leilao` of `src/ms/leilao.py` (lines
124-179), taken after JSON decoding and ISO-date parsing (the claims concern
requests whose dates parse; a parse failure answers 400 without touching
state).  Rejects falsy `nome`/`descricao`, rejects `end_at ≤ start_at`,
otherwise appends the auction with the next fresh id and status
`"agendado"`. -/
def criar_leilao (st : RegState) (nome descricao : String)
    (valor_inicial start_at end_at : Int) : CriarResult :=
  if nome = "" ∨ descricao = "" then
    ⟨st, ⟨400, [("error", .s "Campos obrigatórios: nome, descricao, inicio, fim")]⟩⟩
  else if end_at ≤ start_at then
    ⟨st, ⟨400, [("error", .s "Data de fim deve ser posterior à data de início")]⟩⟩
  else
    let aid := st.next_auction_id
    ⟨{ st with
        next_auction_id := aid + 1,
        leiloes_db := st.leiloes_db ++
          [⟨aid, nome, descricao, valor_inicial, start_at, end_at, "agendado"⟩] },
     ⟨201, [("id", .i aid), ("nome", .s nome), ("descricao", .s descricao),
            ("valor_inicial", .i valor_inicial), ("inicio", .i start_at),
            ("fim", .i end_at), ("status", .s "agendado")]⟩⟩

/-- The start half of one poll iteration of `manage_auctions` (lines 244-260):
walk `leiloes_db` in order and, for every auction not in `leiloes_ativos`,
not in `leiloes_finalizados` and whose start time has arrived, publish
`leilao.iniciado`, add it to `leiloes_ativos` and set its status to
`"ativo"`.  Returns the updated db, the updated actives dict and the events
in publish order. -/
def doStarts (now : Int) :
    List Leilao → List (Int × Int) → List Int →
    List Leilao × List (Int × Int) × List RegEvent
  | [], ativos, _ => ([], ativos, [])
  | l :: rest, ativos, fin =>
      if l.id ∉ ativos.map Prod.fst ∧ l.id ∉ fin ∧ l.start_at ≤ now then
        let r := doStarts now rest (ativos ++ [(l.id, l.end_at)]) fin
        ({ l with status := "ativo" } :: r.1, r.2.1,
         .iniciado l.id l.nome l.descricao l.valor_inicial l.start_at l.end_at :: r.2.2)
      else
        let r := doStarts now rest ativos fin
        (l :: r.1, r.2.1, r.2.2)

/-- `leilao["status"] = "finalizado"` applied to the first db entry with the
given id (the source loop breaks after the first match). -/
def updateStatusFin : List Leilao → Int → List Leilao
  | [], _ => []
  | l :: rest, aid =>
      if l.id = aid then { l with status := "finalizado" } :: rest
      else l :: updateStatusFin rest aid

/-- Key removal `del leiloes_ativos[aid]`. -/
def removeKey (l : List (Int × Int)) (k : Int) : List (Int × Int) :=
  l.filter (fun p => decide (p.1 ≠ k))

/-- The finish half of one poll iteration of `manage_auctions` (lines
262-274): for each id in the precomputed `ended` list, publish
`leilao.finalizado` (with the end time still stored in `leiloes_ativos`), add
it to `leiloes_finalizados`, delete it from `leiloes_ativos` and update its
db status. -/
def doEnds : List Int → RegState → RegState × List RegEvent
  | [], st => (st, [])
  | aid :: rest, st =>
      let fim := (alookup st.leiloes_ativos aid).getD 0
      let st1 : RegState :=
        { st with
            leiloes_finalizados := sinsert st.leiloes_finalizados aid,
            leiloes_ativos := removeKey st.leiloes_ativos aid,
            leiloes_db := updateStatusFin st.leiloes_db aid }
      let r := doEnds rest st1
      (r.1, .finalizado aid fim :: r.2)

/-- One full poll iteration of the `manage_auctions` loop (lines 240-276) at
wall-clock time `now`: process due starts over the db in order, then compute
`ended` from the resulting actives dict and process due finishes. -/
def pollTick (now : Int) (st : RegState) : RegState × List RegEvent :=
  let s := doStarts now st.leiloes_db st.leiloes_ativos st.leiloes_finalizados
  let st1 : RegState := { st with leiloes_db := s.1, leiloes_ativos := s.2.1 }
  let ended := (st1.leiloes_ativos.filter (fun p => decide (p.2 ≤ now))).map Prod.fst
  let e := doEnds ended st1
  (e.1, s.2.2 ++ e.2)

/-- A serialised command against MS Leilão: a REST creation request or one
scheduler poll tick (both run under `leiloes_lock`).  The hardcoded initial
load of `lista_leiloes` is a sequence of `create` commands (it appends to
`leiloes_db` with consecutive fresh ids exactly as `criar_leilao` does). -/
inductive RegCmd where
  | create (nome descricao : String) (valor_inicial start_at end_at : Int)
  | poll (now : Int)
deriving DecidableEq, Repr

/-- One command processed by MS Leilão. -/
def stepReg (st : RegState) : RegCmd → RegState × List RegEvent
  | .create n d v s e => ((criar_leilao st n d v s e).state, [])
  | .poll now => pollTick now st

/-- A serialised run of MS Leilão over a list of commands, accumulating the
published lifecycle events in order. -/
def runReg (st : RegState) : List RegCmd → RegState × List RegEvent
  | [] => (st, [])
  | c :: cs =>
      let p := stepReg st c
      let q := runReg p.1 cs
      (q.1, p.2 ++ q.2)

/-- The per-auction projection of a lifecycle trace: the kinds (start =
`true`, finish = `false`) of the events carrying id `a`, in order. -/
def projKinds (tr : List RegEvent) (a : Int) : List Bool :=
  (tr.filter (fun e => decide (e.eid = a))).map RegEvent.isStart

/-- Ids of the currently active auctions, in insertion order. -/
def activeIds (st : RegState) : List Int := st.leiloes_ativos.map Prod.fst

/-- Core invariant relating the registry's active/finalised tables to the
lifecycle trace emitted so far: active ids are distinct and disjoint from the
finalised set, and the per-auction trace is empty for an untouched auction,
exactly one "started" for an active one, and exactly "started" then
"finished" for a finalised one. -/
def InvCore (A F : List Int) (tr : List RegEvent) : Prop :=
  A.Nodup ∧ (∀ a ∈ A, a ∉ F) ∧
  ∀ a, projKinds tr a =
    if a ∈ F then [true, false] else if a ∈ A then [true] else []

/-! ## Concrete states and input traces used by the concrete theorems -/

/-- The "started" lifecycle message for auction `aid` as published by the
registry (the handler reads only the `id` field). -/
def startMsg (aid : Int) : JObj :=
  [("event", .s "leilao.iniciado"), ("id", .i aid), ("nome", .s "Produto"),
   ("descricao", .s "Leilão de Produto A"), ("valor_inicial", .i 100)]

/-- MS Lance state with auction 1 active and no ledger entry. -/
def activeOne : LanceState := ⟨[1], []⟩

/-- MS Lance state right after `on_leilao_iniciado` for auction 1. -/
def c1State : LanceState := ⟨[1], [(1, (none, 0))]⟩

/-- Inputs for the duplicate-finished scenario: start auction 1, accept a bid
of 50, then deliver the same "finished" event twice. -/
def c2Inputs : List VInput :=
  [.iniciado (startMsg 1), .lance (bidReq 1 "cliente_a" 50),
   .finalizado (finMsg 1 100), .finalizado (finMsg 1 100)]

/-- Inputs for the started-after-finished scenario: start auction 1, finish
it (no bids), re-deliver its "started" event, then submit a bid. -/
def c3Inputs : List VInput :=
  [.iniciado (startMsg 1), .finalizado (finMsg 1 100),
   .iniciado (startMsg 1), .lance (bidReq 1 "cliente_a" 50)]

/-- MS Lance state with auction 1 active and best bid 80 by `cliente_a`. -/
def c5State : LanceState := ⟨[1], [(1, (some "cliente_a", 80))]⟩

/-- MS Lance state for a started auction with zero accepted bids. -/
def noBidsState : LanceState := ⟨[1], [(1, (none, 0))]⟩

/-! ## Theorems for the claims -/

/-- Claim C1: the spec requires every bid envelope whose signature does not
verify over its payload to be rejected with a `lance.invalidado` event with
reason "invalid signature".  The code never verifies signatures: the handler
`efetuar_lance` reads only `auction_id`, `user_id` and `value` from the
request, so a bid whose payload was tampered with after signing is accepted
(HTTP 200, `lance.validado` published) and the outcome is identical for any
signature bytes whatsoever. -/
theorem C1_signature_never_checked :
    (efetuar_lance c1State (bidEnvelope 1 "cliente_a" 50 "TAMPERED")).resp.status = 200 ∧
    (efetuar_lance c1State (bidEnvelope 1 "cliente_a" 50 "TAMPERED")).events =
      [⟨"lance.validado", validadoEvent 1 "cliente_a" 50 0⟩] ∧
    efetuar_lance c1State (bidEnvelope 1 "cliente_a" 50 "TAMPERED") =
      efetuar_lance c1State (bidEnvelope 1 "cliente_a" 50 "GOODSIG") :=
  ⟨rfl, rfl, rfl⟩

/-- Claim C2: the spec requires at most one winner event per auction even
when the "finished" event is re-delivered.  The code re-reads `best_bids`
(entries are never cleared) on every delivery, so re-delivering the same
"finished" event publishes `leilao.vencedor` twice. -/
theorem C2_double_winner_on_redelivery :
    countWinners (runLance lanceInit c2Inputs).2 = 2 := rfl

/-- Claim C3: the spec requires that re-delivery of a "started" event must
not re-activate an auction that already advanced to FINISHED.  The handler
`on_leilao_iniciado` adds the id to `active_auctions` unconditionally (no
finished-set is kept), so after started-finished-started the auction is
active again and a subsequent bid is accepted and published as
`lance.validado`. -/
theorem C3_started_redelivery_reactivates :
    (runLance lanceInit c3Inputs).2 =
      [⟨"lance.validado", validadoEvent 1 "cliente_a" 50 0⟩] ∧
    (runLance lanceInit c3Inputs).1 = ⟨[1], [(1, (some "cliente_a", 50))]⟩ :=
  ⟨rfl, rfl⟩

/-- Claim C4: for a bid on an ACTIVE auction (with fields passing the
required-field check), the bid is accepted and the best-bid entry replaced
iff its value strictly exceeds the current best (absent treated as 0);
otherwise it is rejected, the ledger is unchanged, and the rejection reason
reports the unchanged current value. -/
theorem C4_compare_and_set (st : LanceState) (aid : Int) (uid : String) (v : Int)
    (hact : aid ∈ st.active_auctions) (haid : aid ≠ 0) (huid : uid ≠ "") (hv : v ≠ 0) :
    (((alookup st.best_bids aid).getD (none, 0)).2 < v →
      efetuar_lance st (bidReq aid uid v) =
        ⟨⟨st.active_auctions, ainsert st.best_bids aid (some uid, v)⟩,
         [⟨"lance.validado",
           validadoEvent aid uid v ((alookup st.best_bids aid).getD (none, 0)).2⟩],
         ⟨200, [("message", .s "Lance aceito"), ("auction_id", .i aid),
                ("user_id", .s uid), ("value", .i v)]⟩⟩) ∧
    (v ≤ ((alookup st.best_bids aid).getD (none, 0)).2 →
      efetuar_lance st (bidReq aid uid v) =
        ⟨st,
         [⟨"lance.invalidado",
           invalidadoEvent aid uid v
             ("Lance deve ser maior que " ++
              toString ((alookup st.best_bids aid).getD (none, 0)).2)⟩],
         ⟨400, [("error", .s ("Lance deve ser maior que " ++
                toString ((alookup st.best_bids aid).getD (none, 0)).2))]⟩⟩) := by
  have hred : efetuar_lance st (bidReq aid uid v) = lanceCore st aid uid v := rfl
  have h0 : ¬ (aid = 0 ∨ uid = "" ∨ v = 0) := by
    push_neg
    exact ⟨haid, huid, hv⟩
  have h1 : ¬ aid ∉ st.active_auctions := not_not_intro hact
  constructor
  · intro hlt
    rw [hred]
    unfold lanceCore
    rw [if_neg h0, if_neg h1, if_neg (not_le.mpr hlt)]
  · intro hle
    rw [hred]
    unfold lanceCore
    rw [if_neg h0, if_neg h1, if_pos hle]

/-- Witness for C4 at a concrete input: auction 1 active with empty ledger, a
bid of 50 exceeds the default 0 and is accepted. -/
theorem C4_compare_and_set_witness :
    ((1 : Int) ∈ activeOne.active_auctions ∧
      ((alookup activeOne.best_bids 1).getD (none, 0)).2 < 50) ∧
    efetuar_lance activeOne (bidReq 1 "cliente_a" 50) =
      ⟨⟨[1], [(1, (some "cliente_a", 50))]⟩,
       [⟨"lance.validado", validadoEvent 1 "cliente_a" 50 0⟩],
       ⟨200, [("message", .s "Lance aceito"), ("auction_id", .i 1),
              ("user_id", .s "cliente_a"), ("value", .i 50)]⟩⟩ :=
  ⟨⟨by decide, by decide⟩,
   (C4_compare_and_set activeOne 1 "cliente_a" 50 (by decide) (by decide)
      (by decide) (by decide)).1 (by decide)⟩

/-- Claim C5: the spec requires the winner payload to carry exactly
`{auction_id, user_id, value}`.  The code publishes the winning bidder under
the field name `winner_id` (plus an `event` discriminator); no `user_id`
field is present — which is also why `client.py`'s `consume_notifications`,
reading `user_id`, can never recognise the winner. -/
theorem C5_winner_payload_uses_winner_id :
    (on_leilao_finalizado c5State (finMsg 1 200)).2 =
      [⟨"leilao.vencedor", winnerEvent 1 "cliente_a" 80⟩] ∧
    (winnerEvent 1 "cliente_a" 80).map Prod.fst =
      ["event", "auction_id", "winner_id", "value"] ∧
    "user_id" ∉ (winnerEvent 1 "cliente_a" 80).map Prod.fst :=
  ⟨rfl, rfl, by decide⟩

/-- Counterexample for C6 as stated: auction id 0 is unknown to the validator,
yet the bid is answered with the missing-required-fields error and no
`lance.invalidado` event (reason "auction not active") is published. -/
theorem C6_counterexample_zero_id :
    (0 : Int) ∉ lanceInit.active_auctions ∧
    efetuar_lance lanceInit (bidReq 0 "cliente_a" 50) = ⟨lanceInit, [], missingFieldsResp⟩ :=
  ⟨by decide, rfl⟩

/-- Claim C6 (amended): for every bid that passes the required-field check
(nonzero auction id and value, nonempty user id) whose auction id is not
ACTIVE, the bid is rejected with a `lance.invalidado` event with reason
"Leilão não está ativo" and the ledger is neither consulted nor modified
(the outcome is the same for every ledger content `bb`, which is returned
unchanged). -/
theorem C6_amended_inactive_rejected (A : List Int)
    (bb : List (Int × (Option String × Int))) (aid : Int) (uid : String) (v : Int)
    (hna : aid ∉ A) (haid : aid ≠ 0) (huid : uid ≠ "") (hv : v ≠ 0) :
    efetuar_lance ⟨A, bb⟩ (bidReq aid uid v) =
      ⟨⟨A, bb⟩,
       [⟨"lance.invalidado", invalidadoEvent aid uid v "Leilão não está ativo"⟩],
       ⟨400, [("error", .s "Leilão não está ativo")]⟩⟩ := by
  have hred : efetuar_lance ⟨A, bb⟩ (bidReq aid uid v) = lanceCore ⟨A, bb⟩ aid uid v := rfl
  have h0 : ¬ (aid = 0 ∨ uid = "" ∨ v = 0) := by
    push_neg
    exact ⟨haid, huid, hv⟩
  rw [hred]
  unfold lanceCore
  rw [if_neg h0, if_pos hna]

/-- Witness for the amended C6 at a concrete input: auction 7 was never
started, so a bid of 50 on it is rejected with the inactive-auction event. -/
theorem C6_amended_inactive_rejected_witness :
    ((7 : Int) ∉ ([1] : List Int) ∧ (7 : Int) ≠ 0 ∧ "cliente_b" ≠ "" ∧ (50 : Int) ≠ 0) ∧
    efetuar_lance ⟨[1], []⟩ (bidReq 7 "cliente_b" 50) =
      ⟨⟨[1], []⟩,
       [⟨"lance.invalidado", invalidadoEvent 7 "cliente_b" 50 "Leilão não está ativo"⟩],
       ⟨400, [("error", .s "Leilão não está ativo")]⟩⟩ :=
  ⟨⟨by decide, by decide, by decide, by decide⟩,
   C6_amended_inactive_rejected [1] [] 7 "cliente_b" 50 (by decide) (by decide)
     (by decide) (by decide)⟩

/-- Claim C7: an auction finalized with zero accepted bids (no ledger entry
carrying a bidder id) produces no winner event: processing its "finished"
event publishes nothing. -/
theorem C7_no_bids_no_winner (st : LanceState) (aid t : Int)
    (h : bidderOf st aid = none) :
    (on_leilao_finalizado st (finMsg aid t)).2 = [] := by
  have hred : on_leilao_finalizado st (finMsg aid t) = finCore st aid := rfl
  rw [hred]
  unfold finCore
  rcases hl : alookup st.best_bids aid with _ | ⟨ou, v⟩
  · rfl
  · rcases ou with _ | u
    · rfl
    · unfold bidderOf at h
      rw [hl] at h
      simp at h

/-- Witness for C7 at a concrete input: auction 1 started, no bids accepted,
its "finished" event publishes nothing. -/
theorem C7_no_bids_no_winner_witness :
    bidderOf noBidsState 1 = none ∧
    (on_leilao_finalizado noBidsState (finMsg 1 100)).2 = [] :=
  ⟨by decide, C7_no_bids_no_winner noBidsState 1 100 (by decide)⟩

/-- Claim C8: an auction-creation request whose end time is not strictly
after its start time fails synchronously with a 400 validation error and
leaves the registry state (auction table and id counter) unchanged. -/
theorem C8_end_before_start_rejected (st : RegState) (nome descricao : String)
    (valor start_at end_at : Int) (h : end_at ≤ start_at) :
    (criar_leilao st nome descricao valor start_at end_at).state = st ∧
    (criar_leilao st nome descricao valor start_at end_at).resp.status = 400 := by
  unfold criar_leilao
  by_cases hm : nome = "" ∨ descricao = ""
  · rw [if_pos hm]
    exact ⟨rfl, rfl⟩
  · rw [if_neg hm, if_pos h]
    exact ⟨rfl, rfl⟩

/-- Witness for C8 at a concrete input: end time 5 not after start time 10,
creation rejected, registry unchanged. -/
theorem C8_end_before_start_rejected_witness :
    (5 : Int) ≤ 10 ∧
    (criar_leilao regInit "Produto 1" "Leilão de Produto A" 100 10 5).state = regInit ∧
    (criar_leilao regInit "Produto 1" "Leilão de Produto A" 100 10 5).resp.status = 400 :=
  ⟨by decide,
   (C8_end_before_start_rejected regInit "Produto 1" "Leilão de Produto A" 100 10 5
      (by decide)).1,
   (C8_end_before_start_rejected regInit "Produto 1" "Leilão de Produto A" 100 10 5
      (by decide)).2⟩

/-- Claim C10 (implicit): a REST bid whose `auction_id` or `value` is 0 is
answered with the missing-required-fields 400 error before any validation:
no event is published and the state is unchanged, so such a bid never
receives a validated/invalidated outcome. -/
theorem C10_falsy_fields_short_circuit (st : LanceState) (aid : Int) (uid : String)
    (v : Int) (h : aid = 0 ∨ v = 0) :
    efetuar_lance st (bidReq aid uid v) = ⟨st, [], missingFieldsResp⟩ := by
  have hred : efetuar_lance st (bidReq aid uid v) = lanceCore st aid uid v := rfl
  rw [hred]
  unfold lanceCore
  rw [if_pos (by rcases h with h | h; exacts [Or.inl h, Or.inr (Or.inr h)])]

/-- Witness for C10 at a concrete input: a zero-valued bid on active auction
1 gets the missing-fields error, no events, unchanged state. -/
theorem C10_falsy_fields_short_circuit_witness :
    ((1 : Int) = 0 ∨ (0 : Int) = 0) ∧
    efetuar_lance activeOne (bidReq 1 "cliente_a" 0) = ⟨activeOne, [], missingFieldsResp⟩ :=
  ⟨by decide, C10_falsy_fields_short_circuit activeOne 1 "cliente_a" 0 (by decide)⟩

/-! ## The lifecycle invariant of the scheduler (`manage_auctions`) -/

/-- Per-auction trace projection distributes over trace concatenation. -/
theorem projKinds_append (tr tr2 : List RegEvent) (a : Int) :
    projKinds (tr ++ tr2) a = projKinds tr a ++ projKinds tr2 a := by
  unfold projKinds
  rw [List.filter_append, List.map_append]

/-- Per-auction trace projection of a single event. -/
theorem projKinds_singleton (ev : RegEvent) (a : Int) :
    projKinds [ev] a = if ev.eid = a then [ev.isStart] else [] := by
  unfold projKinds
  by_cases h : ev.eid = a
  · rw [if_pos h]
    simp [h]
  · rw [if_neg h]
    simp [h]

/-- Starting a fresh auction `a` (not active, not finalised) preserves the
core invariant: `a` moves into the active set and one "started" event is
appended. -/
theorem InvCore.start {A F : List Int} {tr : List RegEvent} {a : Int}
    (h : InvCore A F tr) (ha : a ∉ A) (hf : a ∉ F)
    (n d : String) (vi s e : Int) :
    InvCore (A ++ [a]) F (tr ++ [RegEvent.iniciado a n d vi s e]) := by
  obtain ⟨hnd, hdisj, hproj⟩ := h
  refine ⟨?_, ?_, ?_⟩
  · rw [List.nodup_append]
    refine ⟨hnd, List.nodup_singleton a, ?_⟩
    intro x hx hx'
    rw [List.mem_singleton] at hx'
    exact ha (hx' ▸ hx)
  · intro x hx
    rcases List.mem_append.mp hx with hx | hx
    · exact hdisj x hx
    · rw [List.mem_singleton] at hx
      subst hx
      exact hf
  · intro x
    rw [projKinds_append, projKinds_singleton, hproj x]
    dsimp only [RegEvent.eid, RegEvent.isStart]
    by_cases hxa : a = x
    · subst hxa
      simp [ha, hf]
    · simp [hxa, Ne.symm hxa]

/-- Finishing an active auction `a` preserves the core invariant: `a` moves
from the active set to the finalised set and one "finished" event is
appended. -/
theorem InvCore.finish {A F : List Int} {tr : List RegEvent} {a : Int}
    (h : InvCore A F tr) (ha : a ∈ A) (t : Int) :
    InvCore (A.filter (fun y => decide (y ≠ a))) (sinsert F a)
      (tr ++ [RegEvent.finalizado a t]) := by
  obtain ⟨hnd, hdisj, hproj⟩ := h
  have hf : a ∉ F := hdisj a ha
  have hsin : sinsert F a = F ++ [a] := by
    unfold sinsert
    rw [if_neg hf]
  rw [hsin]
  refine ⟨List.Nodup.filter _ hnd, ?_, ?_⟩
  · intro x hx
    rw [List.mem_filter] at hx
    have hxa : x ≠ a := by simpa using hx.2
    intro hmem
    rcases List.mem_append.mp hmem with hm | hm
    · exact hdisj x hx.1 hm
    · exact hxa (List.mem_singleton.mp hm)
  · intro x
    rw [projKinds_append, projKinds_singleton, hproj x]
    dsimp only [RegEvent.eid, RegEvent.isStart]
    by_cases hxa : a = x
    · subst hxa
      simp [ha, hf]
    · simp [hxa, Ne.symm hxa]

/-- Removing a key from the actives dict corresponds to filtering its id out
of the id list. -/
theorem map_fst_removeKey (l : List (Int × Int)) (a : Int) :
    (removeKey l a).map Prod.fst = (l.map Prod.fst).filter (fun y => decide (y ≠ a)) := by
  induction l with
  | nil => rfl
  | cons p rest ih =>
    have ih' := ih
    simp only [removeKey, ne_eq, decide_not] at ih' ⊢
    by_cases hp : p.1 = a
    · simp [List.filter_cons, hp, ih']
    · simp [List.filter_cons, hp, ih']

/-- The start half of a poll tick preserves the core invariant: each
processed auction either starts (guarded by not-active and not-finalised) or
is left alone. -/
theorem doStarts_inv (now : Int) (db : List Leilao) :
    ∀ (ativos : List (Int × Int)) (fin : List Int) (tr : List RegEvent),
      InvCore (ativos.map Prod.fst) fin tr →
      InvCore ((doStarts now db ativos fin).2.1.map Prod.fst) fin
        (tr ++ (doStarts now db ativos fin).2.2) := by
  induction db with
  | nil =>
    intro ativos fin tr h
    simpa [doStarts] using h
  | cons l rest ih =>
    intro ativos fin tr h
    unfold doStarts
    by_cases hc : l.id ∉ ativos.map Prod.fst ∧ l.id ∉ fin ∧ l.start_at ≤ now
    · rw [if_pos hc]
      dsimp only
      have h1 : InvCore ((ativos ++ [(l.id, l.end_at)]).map Prod.fst) fin
          (tr ++ [RegEvent.iniciado l.id l.nome l.descricao l.valor_inicial
                    l.start_at l.end_at]) := by
        rw [List.map_append]
        exact InvCore.start h hc.1 hc.2.1 l.nome l.descricao l.valor_inicial
          l.start_at l.end_at
      have H := ih (ativos ++ [(l.id, l.end_at)]) fin
        (tr ++ [RegEvent.iniciado l.id l.nome l.descricao l.valor_inicial
                  l.start_at l.end_at]) h1
      rw [List.append_assoc] at H
      simpa using H
    · rw [if_neg hc]
      dsimp only
      exact ih ativos fin tr h

/-- The finish half of a poll tick preserves the core invariant, provided the
ids to finish are distinct and all currently active. -/
theorem doEnds_inv (ended : List Int) :
    ∀ (st : RegState) (tr : List RegEvent),
      ended.Nodup → (∀ x ∈ ended, x ∈ activeIds st) →
      InvCore (activeIds st) st.leiloes_finalizados tr →
      InvCore (activeIds (doEnds ended st).1) (doEnds ended st).1.leiloes_finalizados
        (tr ++ (doEnds ended st).2) := by
  induction ended with
  | nil =>
    intro st tr _ _ h
    simpa [doEnds] using h
  | cons a rest ih =>
    intro st tr hnd hsub h
    have ha : a ∈ activeIds st := hsub a (List.mem_cons_self a rest)
    unfold doEnds
    dsimp only
    have hfin := InvCore.finish h ha ((alookup st.leiloes_ativos a).getD 0)
    have hmap : (activeIds st).filter (fun y => decide (y ≠ a)) =
        (removeKey st.leiloes_ativos a).map Prod.fst :=
      (map_fst_removeKey st.leiloes_ativos a).symm
    rw [hmap] at hfin
    have hsub2 : ∀ x ∈ rest,
        x ∈ (removeKey st.leiloes_ativos a).map Prod.fst := by
      intro x hx
      have hxa : x ≠ a := by
        intro heq
        exact (List.nodup_cons.mp hnd).1 (heq ▸ hx)
      rw [map_fst_removeKey, List.mem_filter]
      exact ⟨hsub x (List.mem_cons_of_mem a hx), by simpa using hxa⟩
    have H := ih
      ⟨updateStatusFin st.leiloes_db a, removeKey st.leiloes_ativos a,
       sinsert st.leiloes_finalizados a, st.next_auction_id⟩
      (tr ++ [RegEvent.finalizado a ((alookup st.leiloes_ativos a).getD 0)])
      (List.nodup_cons.mp hnd).2 hsub2 hfin
    rw [List.append_assoc] at H
    simpa using H

/-- One poll tick of `manage_auctions` preserves the core invariant. -/
theorem pollTick_inv (now : Int) (st : RegState) (tr : List RegEvent)
    (h : InvCore (activeIds st) st.leiloes_finalizados tr) :
    InvCore (activeIds (pollTick now st).1) (pollTick now st).1.leiloes_finalizados
      (tr ++ (pollTick now st).2) := by
  unfold pollTick
  dsimp only
  rw [← List.append_assoc]
  have h1 := doStarts_inv now st.leiloes_db st.leiloes_ativos st.leiloes_finalizados tr h
  have hnd : ((doStarts now st.leiloes_db st.leiloes_ativos st.leiloes_finalizados).2.1.map
      Prod.fst).Nodup := h1.1
  apply doEnds_inv
  · exact List.Nodup.sublist
      (List.Sublist.map Prod.fst (List.filter_sublist _)) hnd
  · intro x hx
    rcases List.mem_map.mp hx with ⟨p, hp, rfl⟩
    exact List.mem_map_of_mem Prod.fst (List.mem_of_mem_filter hp)
  · exact h1

/-- Any single serialised command against MS Leilão preserves the core
invariant (creation touches neither the actives dict, the finalised set, nor
the trace). -/
theorem stepReg_inv (st : RegState) (c : RegCmd) (tr : List RegEvent)
    (h : InvCore (activeIds st) st.leiloes_finalizados tr) :
    InvCore (activeIds (stepReg st c).1) (stepReg st c).1.leiloes_finalizados
      (tr ++ (stepReg st c).2) := by
  cases c with
  | create n d v s e =>
    unfold stepReg criar_leilao
    dsimp only
    by_cases hm : n = "" ∨ d = ""
    · rw [if_pos hm]
      simpa using h
    · rw [if_neg hm]
      by_cases he : e ≤ s
      · rw [if_pos he]
        simpa using h
      · rw [if_neg he]
        simpa using h
  | poll now => exact pollTick_inv now st tr h

/-- Any serialised run of MS Leilão preserves the core invariant. -/
theorem runReg_inv (cmds : List RegCmd) :
    ∀ (st : RegState) (tr : List RegEvent),
      InvCore (activeIds st) st.leiloes_finalizados tr →
      InvCore (activeIds (runReg st cmds).1) (runReg st cmds).1.leiloes_finalizados
        (tr ++ (runReg st cmds).2) := by
  induction cmds with
  | nil =>
    intro st tr h
    simpa [runReg] using h
  | cons c cs ih =>
    intro st tr h
    unfold runReg
    dsimp only
    rw [← List.append_assoc]
    exact ih (stepReg st c).1 (tr ++ (stepReg st c).2) (stepReg_inv st c tr h)

/-- The core invariant holds initially (no auctions, empty trace). -/
theorem invCore_init : InvCore (activeIds regInit) regInit.leiloes_finalizados [] := by
  refine ⟨List.nodup_nil, ?_, ?_⟩
  · intro a ha
    simp [activeIds, regInit] at ha
  · intro a
    simp [projKinds, activeIds, regInit]

/-- Claim C9: over any serialised sequence of creation requests and scheduler
poll ticks, each auction id receives at most one "started" and at most one
"finished" lifecycle event, and its per-auction event sequence (`true` =
started, `false` = finished) is a prefix of started-then-finished: the
lifecycle only moves forward SCHEDULED → ACTIVE → FINISHED, never backwards
and never repeating a state. -/
theorem C9_lifecycle_monotone (cmds : List RegCmd) (a : Int) :
    ((projKinds (runReg regInit cmds).2 a).count true ≤ 1 ∧
     (projKinds (runReg regInit cmds).2 a).count false ≤ 1) ∧
    (projKinds (runReg regInit cmds).2 a = [] ∨
     projKinds (runReg regInit cmds).2 a = [true] ∨
     projKinds (runReg regInit cmds).2 a = [true, false]) := by
  have h := runReg_inv cmds regInit [] invCore_init
  have hp := h.2.2 a
  rw [List.nil_append] at hp
  have hD : projKinds (runReg regInit cmds).2 a = [] ∨
      projKinds (runReg regInit cmds).2 a = [true] ∨
      projKinds (runReg regInit cmds).2 a = [true, false] := by
    by_cases hf : a ∈ (runReg regInit cmds).1.leiloes_finalizados
    · right; right
      rw [hp, if_pos hf]
    · by_cases haA : a ∈ activeIds (runReg regInit cmds).1
      · right; left
        rw [hp, if_neg hf, if_pos haA]
      · left
        rw [hp, if_neg hf, if_neg haA]
  refine ⟨?_, hD⟩
  rcases hD with h' | h' | h' <;> rw [h'] <;> simp
